import Mathlib

/-!
Shallow embedding of the event-construction and publishing core of
`src/provider-rust-kafka/src/main.rs`.

Conventions of the embedding:
* Rust machine integers are `Nat` with explicit `% 2 ^ 32` where `u32`
  overflow matters (release-build wrapping semantics).
* Fallible or panicking Rust code returns `Option`: a `none` result models a
  panic (`unwrap` on `Err`/out-of-bounds slicing) or a failed operation.
* `uuid::Uuid::new_v4()` draws 128 random bits; we pass the entropy
  explicitly as a `Nat` argument.
* `serde_json::to_string` is modelled at the JSON-value level: the payload is
  the JSON object it encodes, with fields in struct-declaration order.
-/

namespace PactKafka

/-- Numeric value of an ASCII digit character, as `u32::from_str` reads it. -/
def digitVal (c : Char) : Nat := c.toNat - 48

/-- Value of a most-significant-first ASCII digit list, accumulated the way
`u32::from_str` accumulates digits. -/
def decimalValue (cs : List Char) : Nat := cs.foldl (fun a c => 10 * a + digitVal c) 0

/-- `u32::from_str` accepts one optional leading plus sign. -/
def stripPlus (cs : List Char) : List Char :=
  match cs with
  | [] => []
  | c :: rest => if c = '+' then rest else c :: rest

/-- Embeds Rust `s.parse::<u32>()`: an optional plus sign followed by one or
more ASCII digits whose value fits in a `u32`; every other input is `Err`,
modelled as `none`. -/
def parseU32 (s : String) : Option Nat :=
  let cs := stripPlus s.data
  if cs.isEmpty then none
  else if cs.all Char.isDigit then
    let n := decimalValue cs
    if n < 2 ^ 32 then some n else none
  else none

/-- Embeds the byte slice `&v[1..]`: panics (`none`) when the string is empty
(byte index 1 is past the end) or when the first character occupies more than
one UTF-8 byte (index 1 is then not a character boundary); otherwise drops
exactly the first character. -/
def byteSlice1 (s : String) : Option String :=
  match s.data with
  | [] => none
  | c :: rest => if c.toNat < 128 then some (String.mk rest) else none

/-- Fuel-indexed most-significant-first decimal digits of a natural number. -/
def natToDigitsAux : Nat → Nat → List Char
  | 0, _ => []
  | fuel + 1, n =>
    if n < 10 then [Nat.digitChar n]
    else natToDigitsAux fuel (n / 10) ++ [Nat.digitChar (n % 10)]

/-- Decimal rendering of a natural number, as Rust `format!("{}", n)` prints
an unsigned integer. -/
def natToDecimal (n : Nat) : String := String.mk (natToDigitsAux (n + 1) n)

/-- Embeds `increment_version` from `main.rs`:
`Some(v) => format!("v{}", v[1..].parse::<u32>().unwrap() + 1)`,
`None => "v1"`. The slice and the failed parse panic (`none`); the `u32`
addition wraps modulo `2 ^ 32` (release-build semantics). -/
def increment_version (version : Option String) : Option String :=
  match version with
  | none => some "v1"
  | some v =>
    match byteSlice1 v with
    | none => none
    | some t =>
      match parseU32 t with
      | none => none
      | some num => some ("v" ++ natToDecimal ((num + 1) % 2 ^ 32))

/-- Embeds the `Product` struct (`r#type` is the JSON/wire field `type`). -/
structure Product where
  id : Option String
  name : String
  type : String
  version : Option String

/-- Embeds the `ProductEvent` struct. -/
structure ProductEvent where
  id : String
  name : String
  type : String
  version : String
  event : String

/-- Fixed-width big-endian hexadecimal digits of the low `fuel` nibbles of a
natural number (zero padded), as the `uuid` crate prints each group. -/
def toHexDigits : Nat → Nat → List Char
  | 0, _ => []
  | fuel + 1, n => toHexDigits fuel (n / 16) ++ [Nat.digitChar (n % 16)]

/-- Models `uuid::Uuid::new_v4().to_string()` applied to 128 bits of entropy:
the hyphenated lowercase-hex form `xxxxxxxx-xxxx-4xxx-yxxx-xxxxxxxxxxxx`
(8-4-4-4-12 hex digits) with the version nibble forced to 4 and the variant
nibble to 8..b. -/
def uuidV4String (entropy : Nat) : String :=
  let n := entropy % 2 ^ 128
  String.mk (toHexDigits 8 (n / 2 ^ 96) ++ ['-'] ++ toHexDigits 4 (n / 2 ^ 80)
    ++ ['-'] ++ ['4'] ++ toHexDigits 3 (n / 2 ^ 68)
    ++ ['-'] ++ [Nat.digitChar (8 + n / 2 ^ 62 % 4)] ++ toHexDigits 3 (n / 2 ^ 48)
    ++ ['-'] ++ toHexDigits 12 n)

/-- Embeds the free function `create_event`: computes the next version first
(a panic there, modelled `none`, aborts the construction), then fills the
event; `product.id.unwrap_or_else(|| Uuid::new_v4().to_string())` becomes
`Option.getD` against the rendered uuid drawn from `entropy`. -/
def create_event (entropy : Nat) (product : Product) (event_type : String) :
    Option ProductEvent :=
  match increment_version product.version with
  | none => none
  | some version =>
    some { id := product.id.getD (uuidV4String entropy)
           name := product.name
           type := product.type
           event := event_type
           version := version }

/-- JSON values as far as this wire format needs them. -/
inductive Json where
  | str : String → Json
  | obj : List (String × Json) → Json

/-- First-match field lookup in a JSON object's field list. -/
def lookupField : List (String × Json) → String → Option Json
  | [], _ => none
  | (k, v) :: rest, key => if k = key then some v else lookupField rest key

/-- Field lookup on a JSON value (objects only). -/
def Json.getField : Json → String → Option Json
  | Json.obj fields, key => lookupField fields key
  | _, _ => none

/-- The field names of a JSON object, in order. -/
def Json.keys : Json → List String
  | Json.obj fields => fields.map Prod.fst
  | _ => []

/-- Embeds `serde_json::to_string(&event)` at the JSON-value level: serde
emits the struct's fields in declaration order `id, name, type, version,
event`, each a JSON string. -/
def productEventToJson (e : ProductEvent) : Json :=
  Json.obj [("id", Json.str e.id), ("name", Json.str e.name),
    ("type", Json.str e.type), ("version", Json.str e.version),
    ("event", Json.str e.event)]

/-- Embeds `ProductEventService`: the fixed destination topic. The
`Arc<Mutex<FutureProducer>>` connection handle is modelled separately by the
lock-trace semantics below. -/
structure ProductEventService where
  topic : String

/-- Outcome of the broker client's `send` for one attempt. -/
inductive SendResult where
  | ok
  | deliveryFailure
  | connectionUnavailable

/-- A message as the broker receives it: destination topic and payload. -/
structure KafkaMessage where
  topic : String
  payload : Json

/-- Embeds `ProductEventService::publish`: serialize the event (total for
this struct — every field is a string, so `serde_json::to_string` cannot
fail), build the record for the configured topic, and submit it once; the
`unwrap` on a failed send panics (`none`) — no retry, no fallback, no
suppression. The single `outcome` argument is the broker client's response
to that one submission. -/
def ProductEventService.publish (svc : ProductEventService) (event : ProductEvent)
    (outcome : SendResult) : Option KafkaMessage :=
  let payload := productEventToJson event
  match outcome with
  | SendResult.ok => some { topic := svc.topic, payload := payload }
  | SendResult.deliveryFailure => none
  | SendResult.connectionUnavailable => none

/-- Embeds `ProductEventService::create`: build the event with tag
`"CREATED"`, then publish it; a panic in the factory propagates. -/
def ProductEventService.create (svc : ProductEventService) (entropy : Nat)
    (product : Product) (outcome : SendResult) : Option KafkaMessage :=
  match create_event entropy product "CREATED" with
  | none => none
  | some event => svc.publish event outcome

/-- Embeds `ProductEventService::update` (tag `"UPDATED"`). -/
def ProductEventService.update (svc : ProductEventService) (entropy : Nat)
    (product : Product) (outcome : SendResult) : Option KafkaMessage :=
  match create_event entropy product "UPDATED" with
  | none => none
  | some event => svc.publish event outcome

/-- Embeds `ProductEventService::delete` (tag `"DELETED"`). -/
def ProductEventService.delete (svc : ProductEventService) (entropy : Nat)
    (product : Product) (outcome : SendResult) : Option KafkaMessage :=
  match create_event entropy product "DELETED" with
  | none => none
  | some event => svc.publish event outcome

/-- Atomic steps of a publish call on a `ProductEventService`, identified by
a call id: acquiring the `tokio::sync::Mutex` around the producer handle,
submitting a message to the broker while holding it, and releasing it when
the guard is dropped. -/
inductive Act where
  | acquire : Nat → Act
  | send : Nat → KafkaMessage → Act
  | release : Nat → Act

/-- The call a step belongs to. -/
def Act.caller : Act → Nat
  | Act.acquire c => c
  | Act.send c _ => c
  | Act.release c => c

/-- Semantics of the mutex around the producer handle: the state is the
holding call (if any); `acquire` needs the lock free, `send` and `release`
need the acting call to hold it. A blocked `acquire` contributes no step, so
only these transitions occur in a trace. -/
def lockStep : Option Nat → Act → Option (Option Nat)
  | none, Act.acquire c => some (some c)
  | some h, Act.send c _ => if c = h then some (some h) else none
  | some h, Act.release c => if c = h then some none else none
  | _, _ => none

/-- A trace is lock-valid from a state when every step is a legal mutex
transition. -/
def lockValid : Option Nat → List Act → Bool
  | _, [] => true
  | st, a :: t =>
    match lockStep st a with
    | some st' => lockValid st' t
    | none => false

/-- The steps of one `publish` call in program order: lock the producer,
await the send while holding the lock, drop the guard. -/
def publishBody (c : Nat) (m : KafkaMessage) : List Act :=
  [Act.acquire c, Act.send c m, Act.release c]

/-- The messages the broker receives from a trace, in order, tagged with the
sending call. -/
def sendsOf : List Act → List (Nat × KafkaMessage)
  | [] => []
  | Act.send c m :: t => (c, m) :: sendsOf t
  | _ :: t => sendsOf t

/-- The calls of a trace in the order they acquired the connection handle. -/
def acquiresOf : List Act → List Nat
  | [] => []
  | Act.acquire c :: t => c :: acquiresOf t
  | _ :: t => acquiresOf t

/-- The steps of a trace taken by one call, in order. -/
def projection (t : List Act) (c : Nat) : List Act :=
  t.filter (fun a => a.caller == c)

/-- A well-formed Domain Event: one the Event Factory constructed for one of
the three service operations (their tags are `"CREATED"`, `"UPDATED"`,
`"DELETED"`). -/
def WellFormedEvent (e : ProductEvent) : Prop :=
  ∃ (entropy : Nat) (p : Product) (et : String),
    (et = "CREATED" ∨ et = "UPDATED" ∨ et = "DELETED") ∧
      create_event entropy p et = some e

lemma digitVal_digitChar {d : Nat} (h : d < 10) : digitVal (Nat.digitChar d) = d := by
  interval_cases d <;> rfl

lemma isDigit_digitChar {d : Nat} (h : d < 10) : (Nat.digitChar d).isDigit = true := by
  interval_cases d <;> rfl

lemma decimalValue_append_single (u : List Char) (c : Char) :
    decimalValue (u ++ [c]) = 10 * decimalValue u + digitVal c := by
  simp [decimalValue, List.foldl_append]

/-- With enough fuel, the rendered digit list of `n` is non-empty, consists
of ASCII digits, and evaluates back to `n`. -/
lemma digitsAux_spec : ∀ (fuel n : Nat), n < 10 ^ (fuel + 1) →
    natToDigitsAux (fuel + 1) n ≠ [] ∧
      (natToDigitsAux (fuel + 1) n).all Char.isDigit = true ∧
      decimalValue (natToDigitsAux (fuel + 1) n) = n := by
  intro fuel
  induction fuel with
  | zero =>
    intro n hn
    have h10 : n < 10 := by simpa using hn
    refine ⟨by simp [natToDigitsAux, h10], ?_, ?_⟩
    · simp [natToDigitsAux, h10, isDigit_digitChar h10]
    · simp [natToDigitsAux, h10, decimalValue, digitVal_digitChar h10]
  | succ fuel ih =>
    intro n hn
    by_cases h10 : n < 10
    · refine ⟨by simp [natToDigitsAux, h10], ?_, ?_⟩
      · simp [natToDigitsAux, h10, isDigit_digitChar h10]
      · simp [natToDigitsAux, h10, decimalValue, digitVal_digitChar h10]
    · have hdiv : n / 10 < 10 ^ (fuel + 1) := by
        have : n < 10 ^ (fuel + 1) * 10 := by
          calc n < 10 ^ (fuel + 1 + 1) := hn
          _ = 10 ^ (fuel + 1) * 10 := by ring
        exact (Nat.div_lt_iff_lt_mul (by norm_num)).mpr this
      obtain ⟨hne, hall, hval⟩ := ih (n / 10) hdiv
      have hmod : n % 10 < 10 := Nat.mod_lt _ (by norm_num)
      have hrw : natToDigitsAux (fuel + 1 + 1) n =
          natToDigitsAux (fuel + 1) (n / 10) ++ [Nat.digitChar (n % 10)] := by
        simp [natToDigitsAux, h10]
      refine ⟨by simp [hrw], ?_, ?_⟩
      · simp [hrw, List.all_append, hall, isDigit_digitChar hmod]
      · rw [hrw, decimalValue_append_single, hval, digitVal_digitChar hmod]
        exact Nat.div_add_mod n 10

lemma natToDecimal_spec (n : Nat) :
    natToDigitsAux (n + 1) n ≠ [] ∧
      (natToDigitsAux (n + 1) n).all Char.isDigit = true ∧
      decimalValue (natToDigitsAux (n + 1) n) = n := by
  refine digitsAux_spec n n ?_
  calc n < 10 ^ n := Nat.lt_pow_self (by norm_num) n
  _ ≤ 10 ^ (n + 1) := Nat.pow_le_pow_right (by norm_num) (Nat.le_succ n)

/-- Rendering a `u32`-sized natural number and parsing it back is the
identity: `parseU32 (natToDecimal n) = some n`. -/
lemma parseU32_natToDecimal {n : Nat} (hn : n < 2 ^ 32) :
    parseU32 (natToDecimal n) = some n := by
  obtain ⟨hne, hall, hval⟩ := natToDecimal_spec n
  obtain ⟨c, rest, hcons⟩ := List.exists_cons_of_ne_nil hne
  have hcd : c.isDigit = true := by
    have := List.all_eq_true.mp hall c (by rw [hcons]; exact List.mem_cons_self c rest)
    simpa using this
  have hcplus : ¬ c = '+' := by
    intro h
    rw [h] at hcd
    exact absurd hcd (by decide)
  have hstrip : stripPlus (natToDecimal n).data = natToDigitsAux (n + 1) n := by
    show stripPlus (natToDigitsAux (n + 1) n) = natToDigitsAux (n + 1) n
    rw [hcons]
    simp [stripPlus, hcplus]
  unfold parseU32
  rw [hstrip]
  rw [hcons] at hne hall hval ⊢
  simp [List.isEmpty, hall, hval]
  omega

lemma sendsOf_append : ∀ (u v : List Act), sendsOf (u ++ v) = sendsOf u ++ sendsOf v := by
  intro u v
  induction u with
  | nil => rfl
  | cons a u ih => cases a <;> simp [sendsOf, ih]

lemma acquiresOf_append : ∀ (u v : List Act),
    acquiresOf (u ++ v) = acquiresOf u ++ acquiresOf v := by
  intro u v
  induction u with
  | nil => rfl
  | cons a u ih => cases a <;> simp [acquiresOf, ih]

lemma sendsOf_sendMap (c : Nat) (ms : List KafkaMessage) :
    sendsOf (ms.map (Act.send c)) = ms.map (fun m => (c, m)) := by
  induction ms with
  | nil => rfl
  | cons m ms ih => simp [sendsOf, ih]

lemma acquiresOf_sendMap (c : Nat) (ms : List KafkaMessage) :
    acquiresOf (ms.map (Act.send c)) = [] := by
  induction ms with
  | nil => rfl
  | cons m ms ih => simp [acquiresOf, ih]

lemma map_to_replicate (c : Nat) (ms : List KafkaMessage) :
    (ms.map (fun _ => c)) = List.replicate ms.length c := by
  induction ms with
  | nil => rfl
  | cons m ms ih => simp [List.replicate, ih]

/-- While a call holds the mutex, the trace can only be that call's sends,
possibly followed by its release and a trace starting from the free lock. -/
lemma locked_split : ∀ (t : List Act) (h : Nat), lockValid (some h) t = true →
    ∃ (ms : List KafkaMessage) (r : List Act), t = ms.map (Act.send h) ++ r ∧
      (r = [] ∨ ∃ r', r = Act.release h :: r' ∧ lockValid none r' = true) := by
  intro t
  induction t with
  | nil =>
    intro h _
    exact ⟨[], [], rfl, Or.inl rfl⟩
  | cons a t ih =>
    intro h hv
    cases a with
    | acquire c => simp [lockValid, lockStep] at hv
    | send c m =>
      by_cases hc : c = h
      · subst hc
        have hv' : lockValid (some c) t = true := by simpa [lockValid, lockStep] using hv
        obtain ⟨ms, r, hsplit, hr⟩ := ih c hv'
        exact ⟨m :: ms, r, by simp [hsplit], hr⟩
      · simp [lockValid, lockStep, hc] at hv
    | release c =>
      by_cases hc : c = h
      · subst hc
        have hv' : lockValid none t = true := by simpa [lockValid, lockStep] using hv
        exact ⟨[], Act.release c :: t, rfl, Or.inr ⟨t, rfl, hv'⟩⟩
      · simp [lockValid, lockStep, hc] at hv

/-- In a lock-valid trace, a call can only send after acquiring the handle. -/
lemma send_mem_acquire : ∀ (N : Nat) (t : List Act), t.length ≤ N →
    lockValid none t = true →
    ∀ c, c ∈ (sendsOf t).map Prod.fst → c ∈ acquiresOf t := by
  intro N
  induction N with
  | zero =>
    intro t hlen _ c hc
    rw [List.length_eq_zero.mp (Nat.le_zero.mp hlen)] at hc
    simp [sendsOf] at hc
  | succ N ih =>
    intro t hlen hv c hc
    cases t with
    | nil => simp [sendsOf] at hc
    | cons a t =>
      cases a with
      | send c' m => simp [lockValid, lockStep] at hv
      | release c' => simp [lockValid, lockStep] at hv
      | acquire c0 =>
        have hv' : lockValid (some c0) t = true := by
          simpa [lockValid, lockStep] using hv
        obtain ⟨ms, r, hsplit, hr⟩ := locked_split t c0 hv'
        have hfst : (sendsOf (Act.acquire c0 :: t)).map Prod.fst =
            List.replicate ms.length c0 ++ (sendsOf r).map Prod.fst := by
          rw [hsplit]
          simp [sendsOf, sendsOf_append, sendsOf_sendMap, List.map_map]
        rw [hfst] at hc
        rcases List.mem_append.mp hc with hrep | hrest
        · have hcc := List.eq_of_mem_replicate hrep
          simp [hsplit, acquiresOf, acquiresOf_append, acquiresOf_sendMap, hcc]
        · rcases hr with hnil | ⟨r', hrel, hvr⟩
          · subst hnil
            simp [sendsOf] at hrest
          · subst hrel
            have hlen' : r'.length ≤ N := by
              have := congrArg List.length hsplit
              simp [List.length_append] at this
              simp at hlen
              omega
            have hrest' : c ∈ (sendsOf r').map Prod.fst := by
              simpa [sendsOf] using hrest
            have := ih r' hlen' hvr c hrest'
            simp [hsplit, acquiresOf, acquiresOf_append, acquiresOf_sendMap, this]

/-- Core ordering fact: in a lock-valid trace in which every call acquires
the handle at most once and sends exactly as often as it acquires, the
broker receives the sends in handle-acquisition order. -/
lemma ordered_core : ∀ (N : Nat) (t : List Act), t.length ≤ N →
    lockValid none t = true →
    (∀ c, (acquiresOf t).count c ≤ 1) →
    (∀ c, ((sendsOf t).map Prod.fst).count c = (acquiresOf t).count c) →
    (sendsOf t).map Prod.fst = acquiresOf t := by
  intro N
  induction N with
  | zero =>
    intro t hlen _ _ _
    rw [List.length_eq_zero.mp (Nat.le_zero.mp hlen)]
    rfl
  | succ N ih =>
    intro t hlen hv hacq hcnt
    cases t with
    | nil => rfl
    | cons a t =>
      cases a with
      | send c' m => simp [lockValid, lockStep] at hv
      | release c' => simp [lockValid, lockStep] at hv
      | acquire c0 =>
        have hv' : lockValid (some c0) t = true := by
          simpa [lockValid, lockStep] using hv
        obtain ⟨ms, r, hsplit, hr⟩ := locked_split t c0 hv'
        rcases hr with hnil | ⟨r', hrel, hvr⟩
        · subst hnil
          have hone : ms.length = 1 := by
            have := hcnt c0
            simp [hsplit, sendsOf, acquiresOf, sendsOf_append, sendsOf_sendMap,
              acquiresOf_append, acquiresOf_sendMap, map_to_replicate,
              List.count_replicate_self] at this
            simpa using this
          obtain ⟨m, hm⟩ := List.length_eq_one.mp hone
          subst hm
          simp [hsplit, sendsOf, acquiresOf, sendsOf_append, sendsOf_sendMap,
            acquiresOf_append, acquiresOf_sendMap]
        · subst hrel
          have hacq0 : (acquiresOf r').count c0 = 0 := by
            have := hacq c0
            simp [hsplit, acquiresOf, acquiresOf_append, acquiresOf_sendMap] at this
            omega
          have hnotacq : c0 ∉ acquiresOf r' := List.count_eq_zero.mp hacq0
          have hlen' : r'.length ≤ N := by
            have := congrArg List.length hsplit
            simp [List.length_append] at this
            simp at hlen
            omega
          have hsend0 : ((sendsOf r').map Prod.fst).count c0 = 0 := by
            rw [List.count_eq_zero]
            intro hmem
            exact hnotacq (send_mem_acquire N r' hlen' hvr c0 hmem)
          have hone : ms.length = 1 := by
            have := hcnt c0
            simp [hsplit, sendsOf, acquiresOf, sendsOf_append, sendsOf_sendMap,
              acquiresOf_append, acquiresOf_sendMap, map_to_replicate,
              List.count_replicate_self, List.count_append] at this
            omega
          obtain ⟨m, hm⟩ := List.length_eq_one.mp hone
          subst hm
          have hrest : (sendsOf r').map Prod.fst = acquiresOf r' := by
            refine ih r' hlen' hvr ?_ ?_
            · intro c
              have := hacq c
              simp [hsplit, acquiresOf, acquiresOf_append, acquiresOf_sendMap,
                List.count_cons] at this
              omega
            · intro c
              by_cases hc : c = c0
              · subst hc
                rw [hsend0, hacq0]
              · have := hcnt c
                simp [hsplit, sendsOf, acquiresOf, sendsOf_append, sendsOf_sendMap,
                  acquiresOf_append, acquiresOf_sendMap, map_to_replicate,
                  List.count_append, List.count_replicate, List.count_cons, hc] at this
                simpa using this
          simp [hsplit, sendsOf, acquiresOf, sendsOf_append, sendsOf_sendMap,
            acquiresOf_append, acquiresOf_sendMap, hrest]

lemma count_acquiresOf_eq_proj : ∀ (t : List Act) (c : Nat),
    (acquiresOf t).count c = (acquiresOf (projection t c)).length := by
  intro t c
  induction t with
  | nil => rfl
  | cons a t ih =>
    cases a with
    | acquire c' =>
      by_cases hc : c' = c
      · subst hc
        simp [acquiresOf, projection, List.filter_cons, Act.caller, ih]
      · simp [acquiresOf, projection, List.filter_cons, Act.caller, hc,
          List.count_cons_of_ne (Ne.symm hc), ih]
    | send c' m =>
      by_cases hc : c' = c
      · subst hc
        simp [acquiresOf, projection, List.filter_cons, Act.caller, ih]
      · simp [acquiresOf, projection, List.filter_cons, Act.caller, hc, ih]
    | release c' =>
      by_cases hc : c' = c
      · subst hc
        simp [acquiresOf, projection, List.filter_cons, Act.caller, ih]
      · simp [acquiresOf, projection, List.filter_cons, Act.caller, hc, ih]

lemma count_sendsOf_eq_proj : ∀ (t : List Act) (c : Nat),
    ((sendsOf t).map Prod.fst).count c = (sendsOf (projection t c)).length := by
  intro t c
  induction t with
  | nil => rfl
  | cons a t ih =>
    cases a with
    | acquire c' =>
      by_cases hc : c' = c
      · subst hc
        simp [sendsOf, projection, List.filter_cons, Act.caller, ih]
      · simp [sendsOf, projection, List.filter_cons, Act.caller, hc, ih]
    | send c' m =>
      by_cases hc : c' = c
      · subst hc
        simp [sendsOf, projection, List.filter_cons, Act.caller, ih]
      · simp [sendsOf, projection, List.filter_cons, Act.caller, hc,
          List.count_cons_of_ne (Ne.symm hc), ih]
    | release c' =>
      by_cases hc : c' = c
      · subst hc
        simp [sendsOf, projection, List.filter_cons, Act.caller, ih]
      · simp [sendsOf, projection, List.filter_cons, Act.caller, hc, ih]

lemma mem_sendsOf : ∀ (t : List Act) (c : Nat) (m : KafkaMessage),
    (c, m) ∈ sendsOf t ↔ Act.send c m ∈ t := by
  intro t c m
  induction t with
  | nil => simp [sendsOf]
  | cons a t ih =>
    cases a with
    | acquire c' => simp [sendsOf, ih]
    | send c' m' => simp [sendsOf, ih, Prod.ext_iff]
    | release c' => simp [sendsOf, ih]

/-- `increment_version` on a present version whose first character is a
single UTF-8 byte and whose remainder parses as a `u32`: the result is the
wrapped successor, independently of what that first character is. -/
lemma increment_version_ascii {c : Char} (hc : c.toNat < 128) (rest : String)
    {n : Nat} (hp : parseU32 rest = some n) :
    increment_version (some (String.mk (c :: rest.data))) =
      some ("v" ++ natToDecimal ((n + 1) % 2 ^ 32)) := by
  have hb : byteSlice1 (String.mk (c :: rest.data)) = some rest := by
    show (if c.toNat < 128 then some (String.mk rest.data) else none) = some rest
    rw [if_pos hc]
  simp [increment_version, hb, hp]

lemma toHexDigits_length : ∀ (fuel n : Nat), (toHexDigits fuel n).length = fuel := by
  intro fuel
  induction fuel with
  | zero => intro n; rfl
  | succ fuel ih => intro n; simp [toHexDigits, ih]

lemma uuidV4String_length (entropy : Nat) : (uuidV4String entropy).length = 36 := by
  simp [uuidV4String, String.length, toHexDigits_length]

lemma uuidV4String_ne_empty (entropy : Nat) : uuidV4String entropy ≠ "" := by
  intro h
  have h36 := uuidV4String_length entropy
  rw [h] at h36
  simp [String.length] at h36

/-- Inversion of `create_event`: a produced event's fields in terms of the
snapshot. -/
lemma create_event_inv {entropy : Nat} {p : Product} {et : String} {e : ProductEvent}
    (h : create_event entropy p et = some e) :
    increment_version p.version = some e.version ∧
      e.id = p.id.getD (uuidV4String entropy) ∧
      e.name = p.name ∧ e.type = p.type ∧ e.event = et := by
  cases hiv : increment_version p.version with
  | none => simp [create_event, hiv] at h
  | some v =>
    simp [create_event, hiv] at h
    subst h
    simp [hiv]

/-- `create_event` succeeds exactly when the version computation does. -/
lemma create_event_eq (entropy : Nat) (p : Product) (et v : String)
    (hiv : increment_version p.version = some v) :
    create_event entropy p et =
      some ⟨p.id.getD (uuidV4String entropy), p.name, p.type, v, et⟩ := by
  simp [create_event, hiv]

/-- The serialized payload's `event` field is the event's tag. -/
lemma getField_event (e : ProductEvent) :
    Json.getField (productEventToJson e) "event" = some (Json.str e.event) := rfl

/-- C1 (counterexample): the claim fails as stated at `N = 4294967295 =
2 ^ 32 - 1`: the factory then produces an event with version `"v0"` (the
`u32` successor wraps), not `"v(N+1)" = "v4294967296"`. -/
theorem c1_counterexample :
    create_event 0 ⟨some "p1", "Widget", "Gadget", some "v4294967295"⟩ "CREATED" =
      some ⟨"p1", "Widget", "Gadget", "v0", "CREATED"⟩ ∧
      ("v0" : String) ≠ "v4294967296" :=
  ⟨rfl, by decide⟩

/-- C1 (amended): for every snapshot without a version the produced event has
version `"v1"`; for every snapshot with version `"vN"`, `N` a positive
integer with `N + 1 < 2 ^ 32`, the produced event has version `"v(N+1)"`. -/
theorem c1_version_progression (entropy : Nat) (p : Product) (et : String) :
    (p.version = none →
      ∃ e, create_event entropy p et = some e ∧ e.version = "v1") ∧
    (∀ N : Nat, 1 ≤ N → N + 1 < 2 ^ 32 →
      p.version = some ("v" ++ natToDecimal N) →
      ∃ e, create_event entropy p et = some e ∧
        e.version = "v" ++ natToDecimal (N + 1)) := by
  constructor
  · intro hv
    have hiv : increment_version p.version = some "v1" := by rw [hv]; rfl
    exact ⟨_, create_event_eq entropy p et "v1" hiv, rfl⟩
  · intro N h1 h2 hv
    have hinc : increment_version (some ("v" ++ natToDecimal N)) =
        some ("v" ++ natToDecimal ((N + 1) % 2 ^ 32)) :=
      increment_version_ascii (by decide) (natToDecimal N)
        (parseU32_natToDecimal (by omega))
    rw [Nat.mod_eq_of_lt h2] at hinc
    have hiv : increment_version p.version = some ("v" ++ natToDecimal (N + 1)) := by
      rw [hv]; exact hinc
    exact ⟨_, create_event_eq entropy p et _ hiv, rfl⟩

/-- C1 (witness): snapshot version `"v3"` yields event version `"v4"`. -/
theorem c1_witness :
    ∃ e, create_event 0 ⟨some "p1", "Widget", "Gadget", some "v3"⟩ "UPDATED" =
      some e ∧ e.version = "v4" :=
  (c1_version_progression 0 ⟨some "p1", "Widget", "Gadget", some "v3"⟩ "UPDATED").2
    3 (by decide) (by decide) rfl

/-- C2 (counterexample): the claim is false as stated: the malformed version
`"x3"` (missing `"v"` prefix) does not fail with a `MalformedVersion` error —
the factory silently produces the guessed version `"v4"`; and the malformed
version `"1"` makes the factory panic (modelled `none`), which is a crash,
not an error value. -/
theorem c2_counterexample :
    increment_version (some "x3") = some "v4" ∧
      increment_version (some "1") = none :=
  ⟨rfl, rfl⟩

/-- C2 (amended): there is no `MalformedVersion` error in the code. A present
version whose byte slice `v[1..]` fails to parse as a `u32` makes the factory
panic (`unwrap` on `Err`, modelled `none`), as do strings the slice itself
rejects; in particular `"version2"`, `"v"` and `"1"` panic. But a malformed
version whose tail is numeric, such as `"x3"`, is silently accepted and
incremented. -/
theorem c2_malformed_panics :
    (∀ v t, byteSlice1 v = some t → parseU32 t = none →
      increment_version (some v) = none) ∧
    (∀ v, byteSlice1 v = none → increment_version (some v) = none) ∧
    increment_version (some "version2") = none ∧
    increment_version (some "v") = none ∧
    increment_version (some "1") = none ∧
    increment_version (some "x3") = some "v4" := by
  refine ⟨?_, ?_, rfl, rfl, rfl, rfl⟩
  · intro v t hb hp
    simp [increment_version, hb, hp]
  · intro v hb
    simp [increment_version, hb]

/-- C2 (witness): `"vv"` has a non-numeric tail, so the factory panics. -/
theorem c2_witness : increment_version (some "vv") = none :=
  c2_malformed_panics.1 "vv" "v" rfl rfl

/-- C3: when the snapshot's identity is present, the produced event's
identity is exactly the snapshot's identity. -/
theorem c3_identity_preserved (entropy : Nat) (p : Product) (et s : String)
    (e : ProductEvent) (hid : p.id = some s)
    (h : create_event entropy p et = some e) : e.id = s := by
  have := (create_event_inv h).2.1
  rw [hid] at this
  simpa using this

/-- C3 (witness): identity `"p1"` is copied verbatim into the event. -/
theorem c3_witness :
    ProductEvent.id ⟨"p1", "Widget", "Gadget", "v4", "UPDATED"⟩ = "p1" :=
  c3_identity_preserved 0 ⟨some "p1", "Widget", "Gadget", some "v3"⟩ "UPDATED" "p1"
    ⟨"p1", "Widget", "Gadget", "v4", "UPDATED"⟩ rfl rfl

/-- C4 (counterexample): the claim is false for a snapshot whose identity is
present but empty: the constructed event's identity is the empty string. -/
theorem c4_counterexample :
    (create_event 0 ⟨some "", "Widget", "Gadget", none⟩ "CREATED").map
      ProductEvent.id = some "" := rfl

/-- C4 (amended): a produced event's identity is the snapshot's identity when
one is present (so it is empty exactly when the caller supplied an empty
one); when the snapshot has no identity, the event gets the generated
36-character UUID string, which is non-empty. -/
theorem c4_generated_identity (entropy : Nat) (p : Product) (et : String)
    (e : ProductEvent) (h : create_event entropy p et = some e) :
    (p.id = none → e.id = uuidV4String entropy ∧ e.id ≠ "") ∧
    (∀ s, p.id = some s → e.id = s) := by
  have hid := (create_event_inv h).2.1
  constructor
  · intro hnone
    rw [hnone] at hid
    simp only [Option.getD_none] at hid
    exact ⟨hid, by rw [hid]; exact uuidV4String_ne_empty entropy⟩
  · intro s hsome
    rw [hsome] at hid
    simpa using hid

/-- C4 (witness): a snapshot without identity gets the generated UUID, which
is non-empty. -/
theorem c4_witness :
    ProductEvent.id ⟨uuidV4String 0, "Widget", "Gadget", "v1", "CREATED"⟩ =
      uuidV4String 0 ∧
    ProductEvent.id ⟨uuidV4String 0, "Widget", "Gadget", "v1", "CREATED"⟩ ≠ "" :=
  (c4_generated_identity 0 ⟨none, "Widget", "Gadget", none⟩ "CREATED"
    ⟨uuidV4String 0, "Widget", "Gadget", "v1", "CREATED"⟩ rfl).1 rfl

/-- C5: the `event` field of the published payload is exactly the tag of the
operation that was invoked — `"CREATED"` for create, `"UPDATED"` for update,
`"DELETED"` for delete — for every snapshot and every entropy. -/
theorem c5_event_type_from_operation (svc : ProductEventService) (entropy : Nat)
    (p : Product) (outcome : SendResult) (msg : KafkaMessage) :
    (svc.create entropy p outcome = some msg →
      Json.getField msg.payload "event" = some (Json.str "CREATED")) ∧
    (svc.update entropy p outcome = some msg →
      Json.getField msg.payload "event" = some (Json.str "UPDATED")) ∧
    (svc.delete entropy p outcome = some msg →
      Json.getField msg.payload "event" = some (Json.str "DELETED")) := by
  refine ⟨?_, ?_, ?_⟩
  · intro h
    cases hce : create_event entropy p "CREATED" with
    | none => simp [ProductEventService.create, hce] at h
    | some ev =>
      have htag := (create_event_inv hce).2.2.2.2
      simp [ProductEventService.create, hce, ProductEventService.publish] at h
      cases outcome with
      | ok =>
        simp at h
        rw [← h]
        simp [getField_event, htag]
      | deliveryFailure => simp at h
      | connectionUnavailable => simp at h
  · intro h
    cases hce : create_event entropy p "UPDATED" with
    | none => simp [ProductEventService.update, hce] at h
    | some ev =>
      have htag := (create_event_inv hce).2.2.2.2
      simp [ProductEventService.update, hce, ProductEventService.publish] at h
      cases outcome with
      | ok =>
        simp at h
        rw [← h]
        simp [getField_event, htag]
      | deliveryFailure => simp at h
      | connectionUnavailable => simp at h
  · intro h
    cases hce : create_event entropy p "DELETED" with
    | none => simp [ProductEventService.delete, hce] at h
    | some ev =>
      have htag := (create_event_inv hce).2.2.2.2
      simp [ProductEventService.delete, hce, ProductEventService.publish] at h
      cases outcome with
      | ok =>
        simp at h
        rw [← h]
        simp [getField_event, htag]
      | deliveryFailure => simp at h
      | connectionUnavailable => simp at h

/-- C5 (witness): a concrete create call publishes a payload whose `event`
field is `"CREATED"`. -/
theorem c5_witness :
    Json.getField (productEventToJson ⟨"p1", "Widget", "Gadget", "v1", "CREATED"⟩)
      "event" = some (Json.str "CREATED") :=
  (c5_event_type_from_operation ⟨"products"⟩ 0 ⟨some "p1", "Widget", "Gadget", none⟩
    SendResult.ok
    ⟨"products", productEventToJson ⟨"p1", "Widget", "Gadget", "v1", "CREATED"⟩⟩).1 rfl

/-- C6: the wire payload of every well-formed Domain Event is a JSON object
with exactly the fields `id, name, type, version, event` in that order, and
its `event` field is one of `"CREATED"`, `"UPDATED"`, `"DELETED"`. -/
theorem c6_wire_payload_shape (svc : ProductEventService) (e : ProductEvent)
    (outcome : SendResult) (msg : KafkaMessage) (hwf : WellFormedEvent e)
    (h : svc.publish e outcome = some msg) :
    msg.payload = productEventToJson e ∧
    Json.keys msg.payload = ["id", "name", "type", "version", "event"] ∧
    (Json.getField msg.payload "event" = some (Json.str "CREATED") ∨
      Json.getField msg.payload "event" = some (Json.str "UPDATED") ∨
      Json.getField msg.payload "event" = some (Json.str "DELETED")) := by
  obtain ⟨entropy, p, et, htags, hce⟩ := hwf
  have htag := (create_event_inv hce).2.2.2.2
  cases outcome with
  | deliveryFailure => simp [ProductEventService.publish] at h
  | connectionUnavailable => simp [ProductEventService.publish] at h
  | ok =>
    simp [ProductEventService.publish] at h
    rw [← h]
    refine ⟨rfl, rfl, ?_⟩
    rw [getField_event, htag]
    rcases htags with h1 | h2 | h3
    · exact Or.inl (by rw [h1])
    · exact Or.inr (Or.inl (by rw [h2]))
    · exact Or.inr (Or.inr (by rw [h3]))

/-- C6 (witness): a concrete well-formed event's payload has exactly the five
wire fields and an admissible `event` value. -/
theorem c6_witness :
    WellFormedEvent ⟨"p1", "Widget", "Gadget", "v4", "UPDATED"⟩ ∧
    (Json.keys (productEventToJson ⟨"p1", "Widget", "Gadget", "v4", "UPDATED"⟩) =
        ["id", "name", "type", "version", "event"] ∧
      (Json.getField (productEventToJson ⟨"p1", "Widget", "Gadget", "v4", "UPDATED"⟩)
          "event" = some (Json.str "CREATED") ∨
        Json.getField (productEventToJson ⟨"p1", "Widget", "Gadget", "v4", "UPDATED"⟩)
          "event" = some (Json.str "UPDATED") ∨
        Json.getField (productEventToJson ⟨"p1", "Widget", "Gadget", "v4", "UPDATED"⟩)
          "event" = some (Json.str "DELETED"))) :=
  have hwf : WellFormedEvent ⟨"p1", "Widget", "Gadget", "v4", "UPDATED"⟩ :=
    ⟨0, ⟨some "p1", "Widget", "Gadget", some "v3"⟩, "UPDATED",
      Or.inr (Or.inl rfl), rfl⟩
  ⟨hwf,
    (c6_wire_payload_shape ⟨"products"⟩ ⟨"p1", "Widget", "Gadget", "v4", "UPDATED"⟩
      SendResult.ok
      ⟨"products", productEventToJson ⟨"p1", "Widget", "Gadget", "v4", "UPDATED"⟩⟩
      hwf rfl).2⟩

/-- C7: in every lock-valid trace of one Publisher instance in which each of
the `N` publish calls runs its program-order body (acquire the handle, send
while holding it, release) and no other call touches the handle, the broker
receives the messages in exactly the order the calls acquired the connection
handle, and every received message is one of the published ones. -/
theorem c7_publish_order (t : List Act) (calls : List (Nat × KafkaMessage))
    (hvalid : lockValid none t = true)
    (hactors : ∀ a ∈ t, Act.caller a ∈ calls.map Prod.fst)
    (hcalls : ∀ cm ∈ calls, projection t cm.1 = publishBody cm.1 cm.2) :
    (sendsOf t).map Prod.fst = acquiresOf t ∧
      ∀ q ∈ sendsOf t, q ∈ calls := by
  have hproj_empty : ∀ c, c ∉ calls.map Prod.fst → projection t c = [] := by
    intro c hc
    refine List.filter_eq_nil_iff.mpr ?_
    intro a ha
    simp only [beq_iff_eq]
    intro hcaller
    exact hc (hcaller ▸ hactors a ha)
  have hacq : ∀ c, (acquiresOf t).count c ≤ 1 := by
    intro c
    by_cases hc : c ∈ calls.map Prod.fst
    · obtain ⟨cm, hcm, hfst⟩ := List.mem_map.mp hc
      have hp := hcalls cm hcm
      rw [hfst] at hp
      rw [count_acquiresOf_eq_proj, hp]
      simp [publishBody, acquiresOf]
    · rw [count_acquiresOf_eq_proj, hproj_empty c hc]
      simp [acquiresOf]
  have hcnt : ∀ c, ((sendsOf t).map Prod.fst).count c = (acquiresOf t).count c := by
    intro c
    by_cases hc : c ∈ calls.map Prod.fst
    · obtain ⟨cm, hcm, hfst⟩ := List.mem_map.mp hc
      have hp := hcalls cm hcm
      rw [hfst] at hp
      rw [count_acquiresOf_eq_proj, count_sendsOf_eq_proj, hp]
      rfl
    · rw [count_acquiresOf_eq_proj, count_sendsOf_eq_proj, hproj_empty c hc]
      rfl
  refine ⟨ordered_core t.length t le_rfl hvalid hacq hcnt, ?_⟩
  intro q hq
  obtain ⟨c, m⟩ := q
  have hmem : Act.send c m ∈ t := (mem_sendsOf t c m).mp hq
  have hcfst : c ∈ calls.map Prod.fst := by
    have := hactors (Act.send c m) hmem
    simpa [Act.caller] using this
  obtain ⟨cm, hcm, hfst⟩ := List.mem_map.mp hcfst
  have hp := hcalls cm hcm
  rw [hfst] at hp
  have hproj : Act.send c m ∈ projection t c := by
    refine List.mem_filter.mpr ⟨hmem, ?_⟩
    simp [Act.caller]
  rw [hp] at hproj
  simp [publishBody] at hproj
  obtain ⟨c', m'⟩ := cm
  simp only at hfst hproj
  subst hfst
  subst hproj
  exact hcm

/-- C7 (witness): two publish calls whose bodies run back to back; the broker
receives the two messages in acquisition order. -/
theorem c7_witness :
    (sendsOf [Act.acquire 0, Act.send 0 ⟨"products", Json.str "a"⟩, Act.release 0,
        Act.acquire 1, Act.send 1 ⟨"products", Json.str "b"⟩,
        Act.release 1]).map Prod.fst =
      acquiresOf [Act.acquire 0, Act.send 0 ⟨"products", Json.str "a"⟩,
        Act.release 0, Act.acquire 1, Act.send 1 ⟨"products", Json.str "b"⟩,
        Act.release 1] ∧
    ∀ q ∈ sendsOf [Act.acquire 0, Act.send 0 ⟨"products", Json.str "a"⟩,
        Act.release 0, Act.acquire 1, Act.send 1 ⟨"products", Json.str "b"⟩,
        Act.release 1],
      q ∈ [((0 : Nat), (⟨"products", Json.str "a"⟩ : KafkaMessage)),
        (1, ⟨"products", Json.str "b"⟩)] :=
  c7_publish_order
    [Act.acquire 0, Act.send 0 ⟨"products", Json.str "a"⟩, Act.release 0,
      Act.acquire 1, Act.send 1 ⟨"products", Json.str "b"⟩, Act.release 1]
    [(0, ⟨"products", Json.str "a"⟩), (1, ⟨"products", Json.str "b"⟩)]
    rfl
    (by decide)
    (by
      intro cm hcm
      rcases List.mem_cons.mp hcm with h | h
      · subst h; rfl
      · rcases List.mem_cons.mp h with h' | h'
        · subst h'; rfl
        · simp at h')

/-- C8: a failed send (broker rejection or no usable connection) makes the
publish operation fail — it returns no success value, performs no retry and
no fallback; a successful send delivers exactly the serialized event to the
configured topic. Serialization itself is total for this event type, so a
serialization failure cannot occur. -/
theorem c8_failure_propagation (svc : ProductEventService) (e : ProductEvent) :
    svc.publish e SendResult.deliveryFailure = none ∧
    svc.publish e SendResult.connectionUnavailable = none ∧
    svc.publish e SendResult.ok = some ⟨svc.topic, productEventToJson e⟩ :=
  ⟨rfl, rfl, rfl⟩

/-- C9 (counterexample): the claim fails as stated for the suffix
`n = 4294967295`: `Some("x4294967295")` yields `"v0"` (wrapped successor),
not `"v(n+1)" = "v4294967296"`. -/
theorem c9_counterexample :
    increment_version (some "x4294967295") = some "v0" ∧
      ("v0" : String) ≠ "v4294967296" :=
  ⟨rfl, by decide⟩

/-- C9 (amended): `increment_version` never inspects the value of a present
version's first character (only that it is a single UTF-8 byte): whenever the
characters after the first parse as a `u32` value `n`, the result is
`"v" ++ ((n + 1) mod 2 ^ 32)` — identical to the result for the same string
with first character `'v'`; in particular `Some "x3"` yields `"v4"` exactly
like `Some "v3"`. -/
theorem c9_first_byte_ignored (c : Char) (rest : String) (n : Nat)
    (hc : c.toNat < 128) (hp : parseU32 rest = some n) :
    increment_version (some (String.mk (c :: rest.data))) =
      increment_version (some (String.mk ('v' :: rest.data))) ∧
    increment_version (some (String.mk (c :: rest.data))) =
      some ("v" ++ natToDecimal ((n + 1) % 2 ^ 32)) := by
  have h1 := increment_version_ascii hc rest hp
  have h2 := increment_version_ascii (c := 'v') (by decide) rest hp
  exact ⟨h1.trans h2.symm, h1⟩

/-- C9 (witness): `Some "x3"` produces `"v4"`, the same as `Some "v3"`. -/
theorem c9_witness :
    increment_version (some "x3") = increment_version (some "v3") ∧
      increment_version (some "x3") = some "v4" :=
  c9_first_byte_ignored 'x' "3" 3 (by decide) rfl

/-- C10: the version counter is a `u32`: at the numeric suffix
`4294967295 = 2 ^ 32 - 1` the increment wraps modulo `2 ^ 32`, so the factory
produces `"v0"` and not the mathematically expected `"v4294967296"`. -/
theorem c10_u32_wraparound :
    increment_version (some "v4294967295") = some "v0" ∧
      increment_version (some "v4294967295") ≠ some "v4294967296" :=
  ⟨rfl, by decide⟩

end PactKafka
